import Mathlib

/-!
Verification of the `person` crate (`src/lib.rs`).

The embedding models timestamps (`chrono::DateTime<Utc>`) as integers counting
milliseconds since the Unix epoch (`chrono` keeps nanoseconds, but every
duration handled by this crate is built from whole days or milliseconds, and
`num_milliseconds` truncates to this granularity).  Calendar fields
(`year()`, `month()`, `day()`) are obtained through the standard proleptic
Gregorian civil-from-days conversion, which is the function `chrono` computes.
Randomness is shallowly embedded: every random decision the code draws is a
field of an explicit draw record, and "for every possible draw" becomes
universal quantification over that record.  A Rust panic is modelled by
`Option.none`.
-/

namespace PersonSpec

/-! ### A balanced bounded-range checker

`ballCheck p fuel lo len` decides `∀ i < len, p (lo + i)` by splitting the
range in half, so that kernel reduction only recurses to logarithmic depth.
It is used to discharge the finitely many day-of-era facts the calendar
lemmas below need. -/

def ballCheck (p : Nat → Bool) : Nat → Nat → Nat → Bool
  | 0, _, _ => false
  | fuel + 1, lo, len =>
    if len = 0 then true
    else if len = 1 then p lo
    else ballCheck p fuel lo (len / 2) && ballCheck p fuel (lo + len / 2) (len - len / 2)

theorem ballCheck_sound (p : Nat → Bool) :
    ∀ fuel lo len, ballCheck p fuel lo len = true → ∀ i, i < len → p (lo + i) = true := by
  intro fuel
  induction fuel with
  | zero => intro lo len h; simp [ballCheck] at h
  | succ n ih =>
    intro lo len h i hi
    unfold ballCheck at h
    by_cases h0 : len = 0
    · omega
    · by_cases h1 : len = 1
      · simp [h0, h1] at h
        have : i = 0 := by omega
        subst this
        simpa using h
      · simp [h0, h1, Bool.and_eq_true] at h
        by_cases hlt : i < len / 2
        · exact ih lo (len / 2) h.1 i hlt
        · have h2 := ih (lo + len / 2) (len - len / 2) h.2 (i - len / 2) (by omega)
          have : lo + len / 2 + (i - len / 2) = lo + i := by omega
          rwa [this] at h2

theorem ballCheck_elim {p : Nat → Bool} {len : Nat} (h : ballCheck p 64 0 len = true) :
    ∀ i, i < len → p i = true := by
  intro i hi
  have := ballCheck_sound p 64 0 len h i hi
  simpa using this

/-! ### Proleptic Gregorian calendar

`civilFromDays` converts a count of days since 1970-01-01 to a calendar date
`(year, month, day)`; `daysFromCivil` is its inverse.  These are the standard
era-based civil-calendar algorithms and compute exactly the conversion
`chrono` performs for `Utc` dates.  An era is a 400-year cycle of 146097
days; `civilOfDoe` resolves a day-of-era to a year-of-era (the first
component, between 0 and 400 because January and February count towards the
following year) together with month and day. -/

def civilOfDoe (doe : Nat) : Nat × Nat × Nat :=
  let yoe := (doe - doe / 1460 + doe / 36524 - doe / 146096) / 365
  let doy := doe - (365 * yoe + yoe / 4 - yoe / 100)
  let mp := (5 * doy + 2) / 153
  let d := doy - (153 * mp + 2) / 5 + 1
  let m := if mp < 10 then mp + 3 else mp - 9
  (if m ≤ 2 then yoe + 1 else yoe, m, d)

def civilFromDays (z : Int) : Int × Nat × Nat :=
  let zs := z + 719468
  let era := zs / 146097
  let doe := (zs % 146097).toNat
  let v := civilOfDoe doe
  (era * 400 + v.1, v.2.1, v.2.2)

/-- Day-of-(shifted-)year of a month/day pair, months counted from March. -/
def doyOfMd (m d : Nat) : Nat :=
  (153 * (if 2 < m then m - 3 else m + 9) + 2) / 5 + d - 1

def daysFromCivil (y : Int) (m d : Nat) : Int :=
  let ys := y - (if m ≤ 2 then 1 else 0)
  let era := ys / 400
  let yoe := (ys - era * 400).toNat
  let doe := 365 * yoe + yoe / 4 - yoe / 100 + doyOfMd m d
  era * 146097 + (doe : Int) - 719468

def msPerDay : Int := 86400000

def dayOfTs (t : Int) : Int := t / msPerDay
def msOfDayTs (t : Int) : Int := t % msPerDay

def yearOf (t : Int) : Int := (civilFromDays (dayOfTs t)).1
def monthOf (t : Int) : Nat := (civilFromDays (dayOfTs t)).2.1
def domOf (t : Int) : Nat := (civilFromDays (dayOfTs t)).2.2

/-- Lexicographic "is earlier" on `(month, day, time-of-day)` triples, the
comparison `chrono`'s `years_since` performs on
`(self.month(), self.day(), self.time()) < (base.month(), base.day(), base.time())`. -/
def mdtEarlier (a b : Nat × Nat × Int) : Bool :=
  decide (a.1 < b.1) ||
    (decide (a.1 = b.1) &&
      (decide (a.2.1 < b.2.1) || (decide (a.2.1 = b.2.1) && decide (a.2.2 < b.2.2))))

def mdt (t : Int) : Nat × Nat × Int := (monthOf t, domOf t, msOfDayTs t)

/-- Model of `chrono::DateTime::years_since`: the year difference, lowered by
one when the month/day/time of `self` is earlier in the year than that of
`base`, and `none` (in Rust, `None`) when the result would be negative. -/
def years_since (self base : Int) : Option Nat :=
  if 0 ≤ yearOf self - yearOf base - (if mdtEarlier (mdt self) (mdt base) then 1 else 0) then
    some (yearOf self - yearOf base -
      (if mdtEarlier (mdt self) (mdt base) then 1 else 0)).toNat
  else none

/-! ### Calendar correctness: component functions

The lemmas below establish that `civilFromDays` and `daysFromCivil` are
mutually inverse and strictly monotone.  They work through named components
of `civilOfDoe`: the year-of-era extraction `yoeOfDoe` and the month/day
extraction `extractMd`. -/

def sval (x : Nat) : Nat := x - x / 1460 + x / 36524 - x / 146096

def yoeOfDoe (doe : Nat) : Nat := sval doe / 365

def yearStart (y : Nat) : Nat := 365 * y + y / 4 - y / 100

def nextStart (y : Nat) : Nat := if y = 399 then 146097 else yearStart (y + 1)

def leapA (a : Nat) : Bool := a % 4 == 0 && (a % 100 != 0 || a % 400 == 0)

def extractMd (doy : Nat) : Nat × Nat :=
  let mp := (5 * doy + 2) / 153
  let d := doy - (153 * mp + 2) / 5 + 1
  let m := if mp < 10 then mp + 3 else mp - 9
  (m, d)

def mlenMax : Nat → Nat
  | 1 => 31 | 2 => 29 | 3 => 31 | 4 => 30 | 5 => 31 | 6 => 30
  | 7 => 31 | 8 => 31 | 9 => 30 | 10 => 31 | 11 => 30 | 12 => 31
  | _ => 0

/-- Order-preserving numeric encoding of the within-year part of a date:
ten-thousands carry the January/February year shift, hundreds the month,
units the day. -/
def wyKey (doy : Nat) : Nat :=
  (if (extractMd doy).1 ≤ 2 then 1 else 0) * 10000 + (extractMd doy).1 * 100 + (extractMd doy).2

theorem civilOfDoe_eq (doe : Nat) :
    civilOfDoe doe =
      ((if (extractMd (doe - yearStart (yoeOfDoe doe))).1 ≤ 2 then yoeOfDoe doe + 1
        else yoeOfDoe doe),
       (extractMd (doe - yearStart (yoeOfDoe doe))).1,
       (extractMd (doe - yearStart (yoeOfDoe doe))).2) := rfl

theorem sval_mono_step (x : Nat) : sval x ≤ sval (x + 1) := by
  unfold sval
  by_cases h3 : 146096 ∣ x + 1
  · have h2 : 36524 ∣ x + 1 := dvd_trans ⟨4, by norm_num⟩ h3
    rw [Nat.succ_div_of_dvd h2, Nat.succ_div_of_dvd h3]
    by_cases h1 : 1460 ∣ x + 1
    · rw [Nat.succ_div_of_dvd h1]; omega
    · rw [Nat.succ_div_of_not_dvd h1]; omega
  · rw [Nat.succ_div_of_not_dvd h3]
    by_cases h1 : 1460 ∣ x + 1 <;> by_cases h2 : 36524 ∣ x + 1
    · rw [Nat.succ_div_of_dvd h1, Nat.succ_div_of_dvd h2]; omega
    · rw [Nat.succ_div_of_dvd h1, Nat.succ_div_of_not_dvd h2]; omega
    · rw [Nat.succ_div_of_not_dvd h1, Nat.succ_div_of_dvd h2]; omega
    · rw [Nat.succ_div_of_not_dvd h1, Nat.succ_div_of_not_dvd h2]; omega

theorem sval_mono : Monotone sval := monotone_nat_of_le_succ sval_mono_step

theorem yoeOfDoe_mono {a b : Nat} (h : a ≤ b) : yoeOfDoe a ≤ yoeOfDoe b :=
  Nat.div_le_div_right (sval_mono h)

theorem yearStart_lt_succ (y : Nat) : yearStart y + 365 ≤ yearStart (y + 1) := by
  unfold yearStart
  by_cases h100 : 100 ∣ y + 1
  · have h4 : 4 ∣ y + 1 := dvd_trans ⟨25, by norm_num⟩ h100
    rw [Nat.succ_div_of_dvd h4, Nat.succ_div_of_dvd h100]; omega
  · rw [Nat.succ_div_of_not_dvd h100]
    by_cases h4 : 4 ∣ y + 1
    · rw [Nat.succ_div_of_dvd h4]; omega
    · rw [Nat.succ_div_of_not_dvd h4]; omega

theorem yearStart_strictMono : StrictMono yearStart :=
  strictMono_nat_of_lt_succ (fun n => by have := yearStart_lt_succ n; omega)

theorem yearStart_mono {a b : Nat} (h : a ≤ b) : yearStart a ≤ yearStart b :=
  yearStart_strictMono.monotone h

/-! ### Bounded facts, checked by kernel evaluation -/

set_option maxRecDepth 10000 in
theorem yoe_boundary_check :
    ballCheck (fun y => decide (yoeOfDoe (yearStart y) = y ∧ yoeOfDoe (nextStart y - 1) = y))
      64 0 400 = true := by decide

theorem yoe_boundary {y : Nat} (h : y < 400) :
    yoeOfDoe (yearStart y) = y ∧ yoeOfDoe (nextStart y - 1) = y :=
  of_decide_eq_true (ballCheck_elim yoe_boundary_check y h)

set_option maxRecDepth 10000 in
theorem extractMd_check :
    ballCheck (fun doy => decide (
      let md := extractMd doy
      doyOfMd md.1 md.2 = doy ∧ 1 ≤ md.1 ∧ md.1 ≤ 12 ∧ 1 ≤ md.2 ∧ md.2 ≤ mlenMax md.1 ∧
      (md.1 ≤ 2 ↔ 306 ≤ doy) ∧ ((md.1 = 2 ∧ md.2 = 29) ↔ doy = 365))) 64 0 366 = true := by
  decide

theorem extractMd_facts {doy : Nat} (h : doy < 366) :
    doyOfMd (extractMd doy).1 (extractMd doy).2 = doy ∧ 1 ≤ (extractMd doy).1 ∧
    (extractMd doy).1 ≤ 12 ∧ 1 ≤ (extractMd doy).2 ∧
    (extractMd doy).2 ≤ mlenMax (extractMd doy).1 ∧
    ((extractMd doy).1 ≤ 2 ↔ 306 ≤ doy) ∧
    (((extractMd doy).1 = 2 ∧ (extractMd doy).2 = 29) ↔ doy = 365) := by
  have := of_decide_eq_true (ballCheck_elim extractMd_check doy h)
  simpa using this

set_option maxRecDepth 10000 in
theorem wyKey_step_check :
    ballCheck (fun doy => decide (wyKey doy < wyKey (doy + 1))) 64 0 365 = true := by decide

theorem wyKey_step {doy : Nat} (h : doy < 365) : wyKey doy < wyKey (doy + 1) :=
  of_decide_eq_true (ballCheck_elim wyKey_step_check doy h)

set_option maxRecDepth 10000 in
theorem extractMd_doyOfMd_check :
    ballCheck (fun n => decide (
      let m := n / 31 + 1
      let d := n % 31 + 1
      d ≤ mlenMax m → extractMd (doyOfMd m d) = (m, d))) 64 0 372 = true := by decide

theorem extractMd_doyOfMd {m d : Nat} (h1 : 1 ≤ m) (h2 : m ≤ 12) (h3 : 1 ≤ d)
    (h4 : d ≤ mlenMax m) : extractMd (doyOfMd m d) = (m, d) := by
  have h31 : mlenMax m ≤ 31 := by interval_cases m <;> simp [mlenMax]
  have hn : (m - 1) * 31 + (d - 1) < 372 := by omega
  have key := of_decide_eq_true (ballCheck_elim extractMd_doyOfMd_check ((m - 1) * 31 + (d - 1)) hn)
  have hm : ((m - 1) * 31 + (d - 1)) / 31 + 1 = m := by omega
  have hd2 : ((m - 1) * 31 + (d - 1)) % 31 + 1 = d := by omega
  simp only [hm, hd2] at key
  exact key h4

/-! ### Year-of-era sandwich -/

theorem leapA_iff (a : Nat) :
    leapA a = true ↔ (a % 4 = 0 ∧ (a % 100 ≠ 0 ∨ a % 400 = 0)) := by
  simp [leapA]

theorem nextStart_len {y : Nat} (h : y < 400) :
    nextStart y = yearStart y + (if leapA (y + 1) then 366 else 365) ∧ nextStart y ≤ 146097 := by
  have hd4 : (4 ∣ y + 1) ↔ (y + 1) % 4 = 0 := Nat.dvd_iff_mod_eq_zero
  have hd100 : (100 ∣ y + 1) ↔ (y + 1) % 100 = 0 := Nat.dvd_iff_mod_eq_zero
  have hsucc4 := Nat.succ_div y 4
  have hsucc100 := Nat.succ_div y 100
  simp only [hd4] at hsucc4
  simp only [hd100] at hsucc100
  by_cases h399 : y = 399
  · subst h399
    constructor
    · norm_num [nextStart, yearStart, leapA]
    · norm_num [nextStart]
  · have hns : nextStart y = yearStart (y + 1) := by simp [nextStart, h399]
    rw [hns]
    unfold yearStart
    refine ⟨?_, by omega⟩
    by_cases hl : leapA (y + 1) = true
    · simp only [hl, if_true]
      rw [leapA_iff] at hl
      have h400 : (y + 1) % 400 ≠ 0 := by omega
      rw [hsucc4, hsucc100]
      rcases hl with ⟨hc4, hc⟩
      have hc100 : (y + 1) % 100 ≠ 0 := by tauto
      simp only [hc4, hc100, if_true, if_false]
      omega
    · simp only [Bool.not_eq_true] at hl
      simp only [hl, Bool.false_eq_true, if_false]
      have hl2 : ¬ ((y + 1) % 4 = 0 ∧ ((y + 1) % 100 ≠ 0 ∨ (y + 1) % 400 = 0)) := by
        rw [← leapA_iff, hl]
        simp
      have h400 : (y + 1) % 400 ≠ 0 := by omega
      rw [hsucc4, hsucc100]
      by_cases hc4 : (y + 1) % 4 = 0 <;> by_cases hc100 : (y + 1) % 100 = 0 <;>
        simp only [hc4, hc100, if_true, if_false] <;> omega

theorem yoe_top : yoeOfDoe 146096 = 399 := by
  have := (yoe_boundary (show (399 : Nat) < 400 by norm_num)).2
  simpa [nextStart] using this

theorem yoe_sandwich {doe : Nat} (h : doe < 146097) :
    yearStart (yoeOfDoe doe) ≤ doe ∧ doe < nextStart (yoeOfDoe doe) ∧ yoeOfDoe doe < 400 := by
  have hy0 : yoeOfDoe doe ≤ 399 := by
    have := yoeOfDoe_mono (show doe ≤ 146096 by omega)
    rw [yoe_top] at this
    exact this
  refine ⟨?_, ?_, by omega⟩
  · by_contra hlt
    push_neg at hlt
    have h1 : 1 ≤ yoeOfDoe doe := by
      rcases Nat.eq_zero_or_pos (yoeOfDoe doe) with h0 | h0
      · rw [h0] at hlt; simp [yearStart] at hlt
      · exact h0
    have hprev : yoeOfDoe doe - 1 < 400 := by omega
    have hb := (yoe_boundary hprev).2
    have hns : nextStart (yoeOfDoe doe - 1) = yearStart (yoeOfDoe doe) := by
      have hne : yoeOfDoe doe - 1 ≠ 399 := by omega
      simp only [nextStart, if_neg hne]
      congr 1
      omega
    have hle : doe ≤ nextStart (yoeOfDoe doe - 1) - 1 := by omega
    have hmono := yoeOfDoe_mono hle
    rw [hb] at hmono
    omega
  · by_contra hge
    push_neg at hge
    by_cases h399c : yoeOfDoe doe = 399
    · rw [h399c] at hge
      simp [nextStart] at hge
      omega
    · have hy1 : yoeOfDoe doe + 1 < 400 := by omega
      have hb := (yoe_boundary hy1).1
      have hns : nextStart (yoeOfDoe doe) = yearStart (yoeOfDoe doe + 1) := by
        simp [nextStart, h399c]
      have hmono := yoeOfDoe_mono (show yearStart (yoeOfDoe doe + 1) ≤ doe by omega)
      rw [hb] at hmono
      omega

theorem yoe_unique {doe y : Nat} (h1 : yearStart y ≤ doe) (h2 : doe < nextStart y)
    (h3 : y < 400) : yoeOfDoe doe = y := by
  have hlow := yoeOfDoe_mono h1
  rw [(yoe_boundary h3).1] at hlow
  have hhigh := yoeOfDoe_mono (show doe ≤ nextStart y - 1 by omega)
  rw [(yoe_boundary h3).2] at hhigh
  omega

theorem nextStart_bounds {y : Nat} (h : y < 400) :
    yearStart y + 365 ≤ nextStart y ∧ nextStart y ≤ yearStart y + 366 ∧ nextStart y ≤ 146097 := by
  obtain ⟨he, hle⟩ := nextStart_len h
  refine ⟨?_, ?_, hle⟩ <;> rw [he] <;> split <;> omega

/-! ### A strictly monotone key for days of an era -/

theorem mlenMax_le (m : Nat) : mlenMax m ≤ 31 := by
  unfold mlenMax
  split <;> omega

def doeKey (doe : Nat) : Nat := yoeOfDoe doe * 10000 + wyKey (doe - yearStart (yoeOfDoe doe))

theorem wyKey_bounds {doy : Nat} (h : doy < 366) : 301 ≤ wyKey doy ∧ wyKey doy ≤ 10231 := by
  obtain ⟨-, hm1, hm12, hd1, hdle, hflag, -⟩ := extractMd_facts h
  have h31 := mlenMax_le (extractMd doy).1
  unfold wyKey
  by_cases hm2 : (extractMd doy).1 ≤ 2
  · rw [if_pos hm2]
    have : mlenMax (extractMd doy).1 ≤ 31 := h31
    omega
  · rw [if_neg hm2]
    omega

theorem wyKey_flag_hi {doy : Nat} (h : doy < 366) (hm2 : (extractMd doy).1 ≤ 2) :
    wyKey doy = 10000 + (extractMd doy).1 * 100 + (extractMd doy).2 := by
  unfold wyKey
  rw [if_pos hm2]

theorem wyKey_zero : wyKey 0 = 301 := by decide

theorem doeKey_step {doe : Nat} (h : doe < 146096) : doeKey doe < doeKey (doe + 1) := by
  obtain ⟨hl1, hr1, hb1⟩ := yoe_sandwich (show doe < 146097 by omega)
  obtain ⟨hl2, hr2, hb2⟩ := yoe_sandwich (show doe + 1 < 146097 by omega)
  have hmono : yoeOfDoe doe ≤ yoeOfDoe (doe + 1) := yoeOfDoe_mono (by omega)
  have hb := nextStart_bounds hb1
  by_cases heq : yoeOfDoe (doe + 1) = yoeOfDoe doe
  · unfold doeKey
    rw [heq]
    have hdoy : doe + 1 - yearStart (yoeOfDoe doe) = (doe - yearStart (yoeOfDoe doe)) + 1 := by
      omega
    rw [hdoy]
    have hr2' : doe + 1 < nextStart (yoeOfDoe doe) := by rw [← heq]; exact hr2
    have hstep : wyKey (doe - yearStart (yoeOfDoe doe)) <
        wyKey ((doe - yearStart (yoeOfDoe doe)) + 1) := by
      apply wyKey_step
      omega
    omega
  · have h399 : yoeOfDoe doe ≠ 399 := by omega
    have hns : nextStart (yoeOfDoe doe) = yearStart (yoeOfDoe doe + 1) := by
      simp [nextStart, h399]
    have hch : yearStart (yoeOfDoe doe + 1) ≤ yearStart (yoeOfDoe (doe + 1)) :=
      yearStart_mono (by omega)
    have heq2 : yearStart (yoeOfDoe doe + 1) = yearStart (yoeOfDoe (doe + 1)) := by omega
    have hyeq : yoeOfDoe (doe + 1) = yoeOfDoe doe + 1 :=
      (yearStart_strictMono.injective heq2).symm
    have hdoyrange : 364 ≤ doe - yearStart (yoeOfDoe doe) ∧
        doe - yearStart (yoeOfDoe doe) ≤ 365 := by omega
    obtain ⟨-, hm1, -, hd1, hdle, hflag, -⟩ :=
      extractMd_facts (show doe - yearStart (yoeOfDoe doe) < 366 by omega)
    have hm2 : (extractMd (doe - yearStart (yoeOfDoe doe))).1 ≤ 2 := hflag.mpr (by omega)
    have h31 := mlenMax_le (extractMd (doe - yearStart (yoeOfDoe doe))).1
    have hkey := wyKey_flag_hi (show doe - yearStart (yoeOfDoe doe) < 366 by omega) hm2
    unfold doeKey
    rw [hyeq]
    have hz : doe + 1 - yearStart (yoeOfDoe doe + 1) = 0 := by omega
    rw [hz, wyKey_zero, hkey]
    omega

theorem doeKey_strictOn {a b : Nat} (hab : a < b) (hb : b ≤ 146096) : doeKey a < doeKey b := by
  induction b with
  | zero => omega
  | succ n ih =>
    by_cases han : a = n
    · subst han
      exact doeKey_step (by omega)
    · exact lt_trans (ih (by omega) (by omega)) (doeKey_step (by omega))

theorem doeKey_bounds {doe : Nat} (h : doe < 146097) :
    301 ≤ doeKey doe ∧ doeKey doe ≤ 4000231 := by
  obtain ⟨hl, hr, hb⟩ := yoe_sandwich h
  have hnb := nextStart_bounds hb
  have hwy := wyKey_bounds (show doe - yearStart (yoeOfDoe doe) < 366 by omega)
  unfold doeKey
  omega

/-! ### Day-level date key, monotonicity, validity, roundtrips -/

def dateKey (z : Int) : Int :=
  (civilFromDays z).1 * 10000 + ((civilFromDays z).2.1 : Int) * 100 + ((civilFromDays z).2.2 : Int)

theorem civilFromDays_decomp (z : Int) :
    ∃ era : Int, ∃ doe : Nat,
      z + 719468 = era * 146097 + (doe : Int) ∧ doe < 146097 ∧
      civilFromDays z =
        (era * 400 + (civilOfDoe doe).1, (civilOfDoe doe).2.1, (civilOfDoe doe).2.2) := by
  refine ⟨(z + 719468) / 146097, ((z + 719468) % 146097).toNat, by omega, by omega, rfl⟩

theorem civilOfDoe_key (doe : Nat) :
    (civilOfDoe doe).1 * 10000 + (civilOfDoe doe).2.1 * 100 + (civilOfDoe doe).2.2 =
      doeKey doe := by
  rw [civilOfDoe_eq]
  unfold doeKey wyKey
  by_cases hm : (extractMd (doe - yearStart (yoeOfDoe doe))).1 ≤ 2
  · simp only [hm, if_pos]
    omega
  · simp only [hm, if_neg, if_false]
    omega

theorem dateKey_decomp (z : Int) :
    ∃ era : Int, ∃ doe : Nat,
      z + 719468 = era * 146097 + (doe : Int) ∧ doe < 146097 ∧
      dateKey z = era * 4000000 + (doeKey doe : Int) := by
  obtain ⟨era, doe, h1, h2, h3⟩ := civilFromDays_decomp z
  refine ⟨era, doe, h1, h2, ?_⟩
  unfold dateKey
  rw [h3]
  have hk := civilOfDoe_key doe
  push_cast [← hk]
  ring

theorem dateKey_strict {z1 z2 : Int} (h : z1 < z2) : dateKey z1 < dateKey z2 := by
  obtain ⟨e1, d1, ha1, hb1, hc1⟩ := dateKey_decomp z1
  obtain ⟨e2, d2, ha2, hb2, hc2⟩ := dateKey_decomp z2
  have k1 := doeKey_bounds hb1
  have k2 := doeKey_bounds hb2
  rw [hc1, hc2]
  by_cases he : e1 = e2
  · subst he
    have hd : d1 < d2 := by omega
    have := doeKey_strictOn hd (by omega)
    omega
  · have he12 : e1 < e2 := by omega
    omega

theorem dateKey_mono {z1 z2 : Int} (h : z1 ≤ z2) : dateKey z1 ≤ dateKey z2 := by
  rcases eq_or_lt_of_le h with rfl | hlt
  · exact le_refl _
  · exact le_of_lt (dateKey_strict hlt)

def leapAbs (y : Int) : Bool := y % 4 == 0 && (y % 100 != 0 || y % 400 == 0)

theorem leapAbs_eq (era : Int) (a : Nat) : leapAbs (era * 400 + (a : Int)) = leapA a := by
  rw [Bool.eq_iff_iff, leapA_iff]
  unfold leapAbs
  simp only [Bool.and_eq_true, Bool.or_eq_true, beq_iff_eq, bne_iff_ne]
  omega

/-- Validity of a calendar triple: a month between 1 and 12, a day between 1
and the month's maximal length, and February 29 only in leap years. -/
def ValidYmd (y : Int) (m d : Nat) : Prop :=
  1 ≤ m ∧ m ≤ 12 ∧ 1 ≤ d ∧ d ≤ mlenMax m ∧ ((m = 2 ∧ d = 29) → leapAbs y = true)

theorem civilFromDays_valid (z : Int) :
    ValidYmd (civilFromDays z).1 (civilFromDays z).2.1 (civilFromDays z).2.2 := by
  obtain ⟨era, doe, h1, h2, h3⟩ := civilFromDays_decomp z
  obtain ⟨hsl, hsr, hsb⟩ := yoe_sandwich h2
  have hnb := nextStart_bounds hsb
  have hdoy : doe - yearStart (yoeOfDoe doe) < 366 := by omega
  obtain ⟨hre, hm1, hm12, hd1, hdle, hflag, hfeb⟩ := extractMd_facts hdoy
  have hmx : (civilFromDays z).2.1 = (extractMd (doe - yearStart (yoeOfDoe doe))).1 := by
    rw [h3, civilOfDoe_eq]
  have hdx : (civilFromDays z).2.2 = (extractMd (doe - yearStart (yoeOfDoe doe))).2 := by
    rw [h3, civilOfDoe_eq]
  rw [ValidYmd, hmx, hdx]
  refine ⟨hm1, hm12, hd1, hdle, ?_⟩
  rintro ⟨hm2, hd29⟩
  have hdoy365 : doe - yearStart (yoeOfDoe doe) = 365 := hfeb.mp ⟨hm2, hd29⟩
  have hflag2 : (extractMd (doe - yearStart (yoeOfDoe doe))).1 ≤ 2 := by omega
  have hyx : (civilFromDays z).1 = era * 400 + ((yoeOfDoe doe + 1 : Nat) : Int) := by
    rw [h3, civilOfDoe_eq]
    show era * 400 +
        ((if (extractMd (doe - yearStart (yoeOfDoe doe))).1 ≤ 2 then yoeOfDoe doe + 1
          else yoeOfDoe doe : Nat) : Int) = _
    rw [if_pos hflag2]
  rw [hyx, leapAbs_eq]
  have hlen := (nextStart_len hsb).1
  by_cases hleap : leapA (yoeOfDoe doe + 1) = true
  · exact hleap
  · exfalso
    rw [if_neg hleap] at hlen
    omega

/-! ### Roundtrips between `civilFromDays` and `daysFromCivil` -/

theorem daysFromCivil_eq (y : Int) (m d : Nat) :
    daysFromCivil y m d =
      ((y - (if m ≤ 2 then 1 else 0)) / 400) * 146097 +
        ((365 * ((y - (if m ≤ 2 then 1 else 0)) -
              ((y - (if m ≤ 2 then 1 else 0)) / 400) * 400).toNat +
          ((y - (if m ≤ 2 then 1 else 0)) -
              ((y - (if m ≤ 2 then 1 else 0)) / 400) * 400).toNat / 4 -
          ((y - (if m ≤ 2 then 1 else 0)) -
              ((y - (if m ≤ 2 then 1 else 0)) / 400) * 400).toNat / 100 +
          doyOfMd m d : Nat) : Int) - 719468 := rfl

theorem daysFromCivil_civil (z : Int) :
    daysFromCivil (civilFromDays z).1 (civilFromDays z).2.1 (civilFromDays z).2.2 = z := by
  obtain ⟨era, doe, h1, h2, h3⟩ := civilFromDays_decomp z
  obtain ⟨hsl, hsr, hsb⟩ := yoe_sandwich h2
  have hnb := nextStart_bounds hsb
  have hdoy : doe - yearStart (yoeOfDoe doe) < 366 := by omega
  obtain ⟨hre, hm1, hm12, hd1, hdle, hflag, hfeb⟩ := extractMd_facts hdoy
  have hmx : (civilFromDays z).2.1 = (extractMd (doe - yearStart (yoeOfDoe doe))).1 := by
    rw [h3, civilOfDoe_eq]
  have hdx : (civilFromDays z).2.2 = (extractMd (doe - yearStart (yoeOfDoe doe))).2 := by
    rw [h3, civilOfDoe_eq]
  by_cases hm2 : (extractMd (doe - yearStart (yoeOfDoe doe))).1 ≤ 2
  · have hyx : (civilFromDays z).1 = era * 400 + ((yoeOfDoe doe + 1 : Nat) : Int) := by
      rw [h3, civilOfDoe_eq]
      show era * 400 +
          ((if (extractMd (doe - yearStart (yoeOfDoe doe))).1 ≤ 2 then yoeOfDoe doe + 1
            else yoeOfDoe doe : Nat) : Int) = _
      rw [if_pos hm2]
    rw [hmx, hdx, hyx, daysFromCivil_eq]
    rw [if_pos hm2, hre]
    have hA : era * 400 + ((yoeOfDoe doe + 1 : Nat) : Int) - 1 =
        era * 400 + ((yoeOfDoe doe : Nat) : Int) := by push_cast; ring
    rw [hA]
    have hB : (era * 400 + ((yoeOfDoe doe : Nat) : Int)) / 400 = era := by omega
    rw [hB]
    have hC : (era * 400 + ((yoeOfDoe doe : Nat) : Int) - era * 400).toNat = yoeOfDoe doe := by
      omega
    rw [hC]
    unfold yearStart at hsl ⊢
    omega
  · have hyx : (civilFromDays z).1 = era * 400 + ((yoeOfDoe doe : Nat) : Int) := by
      rw [h3, civilOfDoe_eq]
      show era * 400 +
          ((if (extractMd (doe - yearStart (yoeOfDoe doe))).1 ≤ 2 then yoeOfDoe doe + 1
            else yoeOfDoe doe : Nat) : Int) = _
      rw [if_neg hm2]
    rw [hmx, hdx, hyx, daysFromCivil_eq]
    rw [if_neg hm2, hre]
    have hA : era * 400 + ((yoeOfDoe doe : Nat) : Int) - 0 =
        era * 400 + ((yoeOfDoe doe : Nat) : Int) := by ring
    rw [hA]
    have hB : (era * 400 + ((yoeOfDoe doe : Nat) : Int)) / 400 = era := by omega
    rw [hB]
    have hC : (era * 400 + ((yoeOfDoe doe : Nat) : Int) - era * 400).toNat = yoeOfDoe doe := by
      omega
    rw [hC]
    unfold yearStart at hsl ⊢
    omega

theorem doyOfMd_facts {m d : Nat} (h1 : 1 ≤ m) (h2 : m ≤ 12) (h3 : 1 ≤ d)
    (h4 : d ≤ mlenMax m) :
    doyOfMd m d ≤ 365 ∧ (¬(m = 2 ∧ d = 29) → doyOfMd m d ≤ 364) ∧
      ((m = 2 ∧ d = 29) → doyOfMd m d = 365) := by
  unfold doyOfMd
  interval_cases m <;> simp_all [mlenMax] <;> omega

theorem civilFromDays_of (era : Int) (doe : Nat) (h : doe < 146097) :
    civilFromDays (era * 146097 + (doe : Int) - 719468) =
      (era * 400 + ((civilOfDoe doe).1 : Int), (civilOfDoe doe).2.1, (civilOfDoe doe).2.2) := by
  obtain ⟨e2, d2, h1, h2, h3⟩ := civilFromDays_decomp (era * 146097 + (doe : Int) - 719468)
  have he : e2 = era := by omega
  subst he
  have hd : d2 = doe := by omega
  subst hd
  exact h3

theorem daysFromCivil_decomp (y : Int) (m d : Nat) :
    ∃ E : Int, ∃ Y : Nat, y - (if m ≤ 2 then 1 else 0) = E * 400 + (Y : Int) ∧ Y < 400 ∧
      daysFromCivil y m d = E * 146097 + ((yearStart Y + doyOfMd m d : Nat) : Int) - 719468 := by
  refine ⟨(y - (if m ≤ 2 then 1 else 0)) / 400,
    ((y - (if m ≤ 2 then 1 else 0)) - ((y - (if m ≤ 2 then 1 else 0)) / 400) * 400).toNat,
    by omega, by omega, ?_⟩
  rw [daysFromCivil_eq]
  unfold yearStart
  omega

theorem civil_daysFromCivil {y : Int} {m d : Nat} (hv : ValidYmd y m d) :
    civilFromDays (daysFromCivil y m d) = (y, m, d) := by
  obtain ⟨hm1, hm12, hd1, hdle, hfeb⟩ := hv
  obtain ⟨hdoy365, hdoy364, hdoyeq⟩ := doyOfMd_facts hm1 hm12 hd1 hdle
  obtain ⟨E, Y, hEY, hYb, hdfc⟩ := daysFromCivil_decomp y m d
  have hdoeb : yearStart Y + doyOfMd m d < 146097 := by
    have hmono := yearStart_mono (show Y ≤ 399 by omega)
    have h399 : yearStart 399 = 145731 := by norm_num [yearStart]
    omega
  rw [hdfc, civilFromDays_of E _ hdoeb]
  have hyoe : yoeOfDoe (yearStart Y + doyOfMd m d) = Y := by
    refine yoe_unique (by omega) ?_ (by omega)
    by_cases hfeb2 : m = 2 ∧ d = 29
    · have hy : y = E * 400 + ((Y + 1 : Nat) : Int) := by
        have hm2x : m = 2 := hfeb2.1
        have hsh1 : (if m ≤ 2 then (1 : Int) else 0) = 1 := by rw [hm2x]; norm_num
        rw [hsh1] at hEY
        push_cast
        omega
      have hla := hfeb hfeb2
      rw [hy, leapAbs_eq] at hla
      have hlen := (nextStart_len (show Y < 400 by omega)).1
      rw [if_pos hla] at hlen
      have := hdoyeq hfeb2
      omega
    · have hx := hdoy364 hfeb2
      have := (nextStart_bounds (show Y < 400 by omega)).1
      omega
  have hdoyx : yearStart Y + doyOfMd m d - yearStart Y = doyOfMd m d := by omega
  have hciv : civilOfDoe (yearStart Y + doyOfMd m d) =
      ((if m ≤ 2 then Y + 1 else Y), m, d) := by
    rw [civilOfDoe_eq, hyoe, hdoyx, extractMd_doyOfMd hm1 hm12 hd1 hdle]
  rw [hciv]
  by_cases hm2 : m ≤ 2
  · simp only [if_pos hm2] at hEY ⊢
    have hfin : E * 400 + ((Y + 1 : Nat) : Int) = y := by push_cast; omega
    rw [hfin]
  · simp only [if_neg hm2] at hEY ⊢
    have hfin : E * 400 + ((Y : Nat) : Int) = y := by push_cast; omega
    rw [hfin]

/-! ### Year-span bounds -/

theorem daysFromCivil_shift (y : Int) (m d : Nat) (k : Nat) (hk : k < 400) :
    ∃ E : Int, ∃ Y : Nat, y - (if m ≤ 2 then 1 else 0) = E * 400 + (Y : Int) ∧ Y < 400 ∧
      daysFromCivil (y + (k : Int)) m d - daysFromCivil y m d =
        (if Y + k < 400 then (yearStart (Y + k) : Int) - yearStart Y
         else 146097 + (yearStart (Y + k - 400) : Int) - yearStart Y) := by
  obtain ⟨E, Y, hEY, hYb, hdfc⟩ := daysFromCivil_decomp y m d
  obtain ⟨E2, Y2, hEY2, hYb2, hdfc2⟩ := daysFromCivil_decomp (y + (k : Int)) m d
  refine ⟨E, Y, hEY, hYb, ?_⟩
  by_cases hc : Y + k < 400
  · have hE2 : E2 = E := by omega
    have hY2 : Y2 = Y + k := by omega
    rw [hdfc, hdfc2, hE2, hY2, if_pos hc]
    push_cast
    ring
  · have hE2 : E2 = E + 1 := by omega
    have hY2 : Y2 = Y + k - 400 := by omega
    rw [hdfc, hdfc2, hE2, hY2, if_neg hc]
    have hcast : ((Y + k - 400 : Nat) : Int) = (Y : Int) + k - 400 := by omega
    push_cast
    ring

set_option maxRecDepth 10000 in
theorem span21_check :
    ballCheck (fun w => decide
      ((if w + 21 < 400 then yearStart (w + 21) else 146097 + yearStart (w + 21 - 400)) ≤
        yearStart w + 7685)) 64 0 400 = true := by decide

set_option maxRecDepth 10000 in
theorem span21_leap_check :
    ballCheck (fun w => decide (leapA w = true →
      (if w + 21 < 400 then yearStart (w + 21) else 146097 + yearStart (w + 21 - 400)) ≤
        yearStart w + 7670)) 64 0 400 = true := by decide

set_option maxRecDepth 10000 in
theorem span101_check :
    ballCheck (fun w => decide
      (yearStart w + 36601 ≤
        (if w + 101 < 400 then yearStart (w + 101) else 146097 + yearStart (w + 101 - 400)))) 64
      0 400 = true := by decide

theorem daysFromCivil_add21_le (y : Int) (m d : Nat) :
    daysFromCivil (y + 21) m d ≤ daysFromCivil y m d + 7685 := by
  obtain ⟨E, Y, hEY, hYb, hdiff⟩ := daysFromCivil_shift y m d 21 (by norm_num)
  have hch := of_decide_eq_true (ballCheck_elim span21_check Y hYb)
  have h21 : ((21 : Nat) : Int) = (21 : Int) := by norm_num
  rw [h21] at hdiff
  by_cases hc : Y + 21 < 400
  · rw [if_pos hc] at hdiff hch
    omega
  · rw [if_neg hc] at hdiff hch
    omega

theorem daysFromCivil_mar1_add21_le {y : Int} (hl : leapAbs y = true) :
    daysFromCivil (y + 21) 3 1 ≤ daysFromCivil y 3 1 + 7670 := by
  obtain ⟨E, Y, hEY, hYb, hdiff⟩ := daysFromCivil_shift y 3 1 21 (by norm_num)
  have hch := of_decide_eq_true (ballCheck_elim span21_leap_check Y hYb)
  have hsh : ((if (3 : Nat) ≤ 2 then (1 : Int) else 0)) = 0 := by norm_num
  rw [hsh] at hEY
  have hyy : y = E * 400 + (Y : Int) := by omega
  rw [hyy, leapAbs_eq] at hl
  have hch2 := hch hl
  have h21 : ((21 : Nat) : Int) = (21 : Int) := by norm_num
  rw [h21] at hdiff
  by_cases hc : Y + 21 < 400
  · rw [if_pos hc] at hdiff hch2
    omega
  · rw [if_neg hc] at hdiff hch2
    omega

theorem daysFromCivil_add101_ge (y : Int) (m d : Nat) :
    daysFromCivil y m d + 36601 ≤ daysFromCivil (y + 101) m d := by
  obtain ⟨E, Y, hEY, hYb, hdiff⟩ := daysFromCivil_shift y m d 101 (by norm_num)
  have hch := of_decide_eq_true (ballCheck_elim span101_check Y hYb)
  have h101 : ((101 : Nat) : Int) = (101 : Int) := by norm_num
  rw [h101] at hdiff
  by_cases hc : Y + 101 < 400
  · rw [if_pos hc] at hdiff hch
    omega
  · rw [if_neg hc] at hdiff hch
    omega

theorem feb29_mar1 (y : Int) :
    daysFromCivil y 3 1 = daysFromCivil y 2 29 + (if leapAbs y = true then 1 else 0) := by
  obtain ⟨E, Y, hEY, hYb, hd⟩ := daysFromCivil_decomp y 2 29
  obtain ⟨E2, Y2, hEY2, hYb2, hd2⟩ := daysFromCivil_decomp y 3 1
  have hsh1 : ((if (2 : Nat) ≤ 2 then (1 : Int) else 0)) = 1 := by norm_num
  have hsh0 : ((if (3 : Nat) ≤ 2 then (1 : Int) else 0)) = 0 := by norm_num
  rw [hsh1] at hEY
  rw [hsh0] at hEY2
  have hdoy229 : doyOfMd 2 29 = 365 := by norm_num [doyOfMd]
  have hdoy31 : doyOfMd 3 1 = 0 := by norm_num [doyOfMd]
  have hle : leapAbs y = leapA Y2 := by
    rw [show y = E2 * 400 + (Y2 : Int) by omega, leapAbs_eq]
  by_cases hY399 : Y = 399
  · have hE2 : E2 = E + 1 := by omega
    have hY2 : Y2 = 0 := by omega
    have hl0 : leapA 0 = true := by decide
    rw [hd, hd2, hdoy229, hdoy31, hE2, hY2, hY399]
    rw [hle, hY2, hl0, if_pos rfl]
    have hv399 : yearStart 399 = 145731 := by norm_num [yearStart]
    have hv0 : yearStart 0 = 0 := by norm_num [yearStart]
    rw [hv399, hv0]
    push_cast
    ring
  · have hE2 : E2 = E := by omega
    have hY2 : Y2 = Y + 1 := by omega
    have hlen := (nextStart_len hYb).1
    have hns : nextStart Y = yearStart (Y + 1) := by simp [nextStart, hY399]
    rw [hd, hd2, hdoy229, hdoy31, hE2, hY2, hle, hY2]
    by_cases hl : leapA (Y + 1) = true
    · rw [if_pos hl] at hlen
      rw [hl, if_pos rfl]
      omega
    · rw [if_neg hl] at hlen
      simp only [Bool.not_eq_true] at hl
      rw [hl]
      simp only [Bool.false_eq_true, if_false]
      omega

/-! ### Timestamp keys -/

def tsKey (t : Int) : Int := dateKey (dayOfTs t) * 86400000 + msOfDayTs t

theorem ts_split (t : Int) :
    t = dayOfTs t * msPerDay + msOfDayTs t ∧ 0 ≤ msOfDayTs t ∧ msOfDayTs t < msPerDay := by
  unfold dayOfTs msOfDayTs msPerDay
  omega

theorem tsKey_strict {t1 t2 : Int} (h : t1 < t2) : tsKey t1 < tsKey t2 := by
  unfold tsKey
  obtain ⟨he1, hl1, hr1⟩ := ts_split t1
  obtain ⟨he2, hl2, hr2⟩ := ts_split t2
  unfold msPerDay at *
  by_cases hd : dayOfTs t1 = dayOfTs t2
  · rw [hd]
    omega
  · have hdl : dayOfTs t1 < dayOfTs t2 := by omega
    have := dateKey_strict hdl
    omega

theorem tsKey_le_iff (t1 t2 : Int) : t1 ≤ t2 ↔ tsKey t1 ≤ tsKey t2 := by
  constructor
  · intro h
    rcases eq_or_lt_of_le h with rfl | hlt
    · exact le_refl _
    · exact le_of_lt (tsKey_strict hlt)
  · intro h
    by_contra hc
    push_neg at hc
    have := tsKey_strict hc
    omega

theorem valid_ts (t : Int) : ValidYmd (yearOf t) (monthOf t) (domOf t) :=
  civilFromDays_valid (dayOfTs t)

theorem dateKey_ts (t : Int) :
    dateKey (dayOfTs t) =
      yearOf t * 10000 + ((monthOf t : Nat) : Int) * 100 + ((domOf t : Nat) : Int) := rfl

theorem leapAbs_iff (y : Int) :
    leapAbs y = true ↔ (y % 4 = 0 ∧ (y % 100 ≠ 0 ∨ y % 400 = 0)) := by
  simp [leapAbs]

theorem mdtEarlier_iff (t1 t2 : Int) :
    mdtEarlier (mdt t1) (mdt t2) = true ↔
      ((monthOf t1 * 100 + domOf t1 : Nat) : Int) * 86400000 + msOfDayTs t1 <
        ((monthOf t2 * 100 + domOf t2 : Nat) : Int) * 86400000 + msOfDayTs t2 := by
  obtain ⟨hm1, hm12, hd1, hdle, -⟩ := valid_ts t1
  obtain ⟨hm1', hm12', hd1', hdle', -⟩ := valid_ts t2
  have h31 := mlenMax_le (monthOf t1)
  have h31' := mlenMax_le (monthOf t2)
  obtain ⟨-, hl1, hr1⟩ := ts_split t1
  obtain ⟨-, hl2, hr2⟩ := ts_split t2
  unfold msPerDay at *
  unfold mdtEarlier mdt
  simp only [Bool.or_eq_true, Bool.and_eq_true, decide_eq_true_eq]
  omega

/-! ### Characterising `years_since` -/

theorem tsKey_eq (t : Int) :
    tsKey t = yearOf t * 864000000000 +
      (((monthOf t * 100 + domOf t : Nat) : Int) * 86400000 + msOfDayTs t) := by
  rw [tsKey, dateKey_ts]
  push_cast
  ring

theorem tsKey_lt_iff (t1 t2 : Int) : t1 < t2 ↔ tsKey t1 < tsKey t2 := by
  constructor
  · exact tsKey_strict
  · intro h
    by_contra hc
    push_neg at hc
    have := (tsKey_le_iff t2 t1).mp hc
    omega

theorem yearsVal_lt_iff (t2 t1 : Int) :
    yearOf t2 - yearOf t1 - (if mdtEarlier (mdt t2) (mdt t1) then 1 else 0) < 0 ↔ t2 < t1 := by
  have hk1 := tsKey_eq t1
  have hk2 := tsKey_eq t2
  obtain ⟨hm1, hm12, hd1, hdle, -⟩ := valid_ts t1
  obtain ⟨hm1', hm12', hd1', hdle', -⟩ := valid_ts t2
  have h31 := mlenMax_le (monthOf t1)
  have h31' := mlenMax_le (monthOf t2)
  obtain ⟨-, hl1, hr1⟩ := ts_split t1
  obtain ⟨-, hl2, hr2⟩ := ts_split t2
  unfold msPerDay at *
  have hE := mdtEarlier_iff t2 t1
  rw [tsKey_lt_iff t2 t1]
  by_cases he : mdtEarlier (mdt t2) (mdt t1) = true
  · rw [if_pos he]
    rw [hE] at he
    omega
  · rw [if_neg he]
    have he' : ¬(((monthOf t2 * 100 + domOf t2 : Nat) : Int) * 86400000 + msOfDayTs t2 <
        ((monthOf t1 * 100 + domOf t1 : Nat) : Int) * 86400000 + msOfDayTs t1) :=
      fun hc => he (hE.mpr hc)
    omega

theorem years_since_none_iff (t2 t1 : Int) : years_since t2 t1 = none ↔ t2 < t1 := by
  rw [← yearsVal_lt_iff]
  unfold years_since
  by_cases h0 : 0 ≤ yearOf t2 - yearOf t1 - (if mdtEarlier (mdt t2) (mdt t1) then 1 else 0)
  · rw [if_pos h0]
    simp only [reduceCtorEq, false_iff]
    omega
  · rw [if_neg h0]
    simp only [true_iff]
    omega

theorem years_since_val (t2 t1 : Int) (h : t1 ≤ t2) :
    ∃ a : Nat, years_since t2 t1 = some a ∧
      (a : Int) = yearOf t2 - yearOf t1 -
        (if mdtEarlier (mdt t2) (mdt t1) then 1 else 0) := by
  have h0 : 0 ≤ yearOf t2 - yearOf t1 - (if mdtEarlier (mdt t2) (mdt t1) then 1 else 0) := by
    by_contra hc
    push_neg at hc
    have := (yearsVal_lt_iff t2 t1).mp hc
    omega
  refine ⟨(yearOf t2 - yearOf t1 -
    (if mdtEarlier (mdt t2) (mdt t1) then 1 else 0)).toNat, ?_, by omega⟩
  unfold years_since
  rw [if_pos h0]

/-! ### Whole-year bounds on `years_since` over millisecond gaps -/

theorem valid_bounds (t : Int) :
    1 ≤ monthOf t ∧ monthOf t ≤ 12 ∧ 1 ≤ domOf t ∧ domOf t ≤ 31 ∧
      (monthOf t = 2 → domOf t ≤ 29) ∧
      ((monthOf t = 2 ∧ domOf t = 29) → leapAbs (yearOf t) = true) := by
  obtain ⟨h1, h2, h3, h4, h5⟩ := valid_ts t
  refine ⟨h1, h2, h3, le_trans h4 (mlenMax_le _), ?_, h5⟩
  intro hm
  rw [hm] at h4
  simpa [mlenMax] using h4

theorem day_gap_ge {t1 t2 : Int} (k : Nat) (h : t1 + (k : Int) * msPerDay ≤ t2) :
    dayOfTs t1 + (k : Int) ≤ dayOfTs t2 := by
  obtain ⟨he1, hl1, hr1⟩ := ts_split t1
  obtain ⟨he2, hl2, hr2⟩ := ts_split t2
  unfold msPerDay at *
  omega

theorem day_gap_le {t1 t2 : Int} (k : Nat) (h : t2 ≤ t1 + (k : Int) * msPerDay) :
    dayOfTs t2 ≤ dayOfTs t1 + (k : Int) := by
  obtain ⟨he1, hl1, hr1⟩ := ts_split t1
  obtain ⟨he2, hl2, hr2⟩ := ts_split t2
  unfold msPerDay at *
  omega

theorem age_ge_21 {t1 t2 : Int} (hgap : t1 + 7686 * msPerDay ≤ t2) :
    ∃ a : Nat, years_since t2 t1 = some a ∧ 21 ≤ a := by
  have hday : dayOfTs t1 + 7686 ≤ dayOfTs t2 := by
    have := day_gap_ge 7686 (by push_cast; exact hgap)
    push_cast at this
    omega
  have ht12 : t1 ≤ t2 := by unfold msPerDay at hgap; omega
  obtain ⟨hm1, hm12, hd1, hd31, hd229, hfeb⟩ := valid_bounds t1
  obtain ⟨hm1', hm12', hd1', hd31', hd229', -⟩ := valid_bounds t2
  obtain ⟨-, hms1, hms1'⟩ := ts_split t1
  obtain ⟨-, hms2, hms2'⟩ := ts_split t2
  have hR1 : daysFromCivil (yearOf t1) (monthOf t1) (domOf t1) = dayOfTs t1 :=
    daysFromCivil_civil (dayOfTs t1)
  have hdk2 := dateKey_ts t2
  have hE := mdtEarlier_iff t2 t1
  obtain ⟨a, ha, hav⟩ := years_since_val t2 t1 ht12
  refine ⟨a, ha, ?_⟩
  unfold msPerDay at *
  by_cases hfb : monthOf t1 = 2 ∧ domOf t1 = 29
  · have hlp := hfeb hfb
    have hmar := feb29_mar1 (yearOf t1)
    rw [if_pos hlp] at hmar
    rw [hfb.1, hfb.2] at hR1
    have hspan := daysFromCivil_mar1_add21_le hlp
    have hvalidB : ValidYmd (yearOf t1 + 21) 3 1 :=
      ⟨by norm_num, by norm_num, by norm_num, by norm_num [mlenMax], by norm_num⟩
    have hcivB := civil_daysFromCivil hvalidB
    have hu_lt : daysFromCivil (yearOf t1 + 21) 3 1 < dayOfTs t2 := by omega
    have hdk := dateKey_strict hu_lt
    have hdku : dateKey (daysFromCivil (yearOf t1 + 21) 3 1) =
        (yearOf t1 + 21) * 10000 + 301 := by
      unfold dateKey
      rw [hcivB]
      push_cast
      ring
    rw [hdku, hdk2] at hdk
    by_cases he : mdtEarlier (mdt t2) (mdt t1) = true
    · rw [if_pos he] at hav
      rw [hE] at he
      omega
    · rw [if_neg he] at hav
      have he' : ¬(((monthOf t2 * 100 + domOf t2 : Nat) : Int) * 86400000 + msOfDayTs t2 <
          ((monthOf t1 * 100 + domOf t1 : Nat) : Int) * 86400000 + msOfDayTs t1) :=
        fun hc => he (hE.mpr hc)
      omega
  · have hvalid21 : ValidYmd (yearOf t1 + 21) (monthOf t1) (domOf t1) :=
      ⟨hm1, hm12, hd1, (valid_ts t1).2.2.2.1, fun hc => absurd hc hfb⟩
    have hciv := civil_daysFromCivil hvalid21
    have hspan := daysFromCivil_add21_le (yearOf t1) (monthOf t1) (domOf t1)
    have hu_lt : daysFromCivil (yearOf t1 + 21) (monthOf t1) (domOf t1) < dayOfTs t2 := by
      omega
    have hdk := dateKey_strict hu_lt
    have hdku : dateKey (daysFromCivil (yearOf t1 + 21) (monthOf t1) (domOf t1)) =
        (yearOf t1 + 21) * 10000 + ((monthOf t1 : Nat) : Int) * 100 +
          ((domOf t1 : Nat) : Int) := by
      unfold dateKey
      rw [hciv]
    rw [hdku, hdk2] at hdk
    by_cases he : mdtEarlier (mdt t2) (mdt t1) = true
    · rw [if_pos he] at hav
      rw [hE] at he
      omega
    · rw [if_neg he] at hav
      have he' : ¬(((monthOf t2 * 100 + domOf t2 : Nat) : Int) * 86400000 + msOfDayTs t2 <
          ((monthOf t1 * 100 + domOf t1 : Nat) : Int) * 86400000 + msOfDayTs t1) :=
        fun hc => he (hE.mpr hc)
      omega

theorem age_le_100 {t1 t2 : Int} (h1 : t1 ≤ t2) (hgap : t2 ≤ t1 + 36600 * msPerDay) :
    ∃ a : Nat, years_since t2 t1 = some a ∧ a ≤ 100 := by
  obtain ⟨a, ha, hav⟩ := years_since_val t2 t1 h1
  refine ⟨a, ha, ?_⟩
  by_contra hgt
  push_neg at hgt
  have hday : dayOfTs t2 ≤ dayOfTs t1 + 36600 := by
    have := day_gap_le 36600 (by push_cast; exact hgap)
    push_cast at this
    omega
  obtain ⟨hm1, hm12, hd1, hd31, hd229, hfeb⟩ := valid_bounds t1
  obtain ⟨hm1', hm12', hd1', hd31', hd229', hfeb'⟩ := valid_bounds t2
  obtain ⟨-, hms1, hms1'⟩ := ts_split t1
  obtain ⟨-, hms2, hms2'⟩ := ts_split t2
  have hR1 : daysFromCivil (yearOf t1) (monthOf t1) (domOf t1) = dayOfTs t1 :=
    daysFromCivil_civil (dayOfTs t1)
  have hdk2 := dateKey_ts t2
  have hE := mdtEarlier_iff t2 t1
  unfold msPerDay at *
  have hspan := daysFromCivil_add101_ge (yearOf t1) (monthOf t1) (domOf t1)
  have hu_gt : dayOfTs t2 < daysFromCivil (yearOf t1 + 101) (monthOf t1) (domOf t1) := by
    omega
  have hdk := dateKey_strict hu_gt
  by_cases hfb : monthOf t1 = 2 ∧ domOf t1 = 29
  · have hlp := hfeb hfb
    have hnl : leapAbs (yearOf t1 + 101) = false := by
      have hmods := (leapAbs_iff (yearOf t1)).mp hlp
      have : ¬ (leapAbs (yearOf t1 + 101) = true) := by
        rw [leapAbs_iff]
        omega
      simpa using this
    have hmar := feb29_mar1 (yearOf t1 + 101)
    rw [hnl] at hmar
    simp only [Bool.false_eq_true, if_false, add_zero] at hmar
    rw [hfb.1, hfb.2] at hdk
    rw [← hmar] at hdk
    have hvalidB : ValidYmd (yearOf t1 + 101) 3 1 :=
      ⟨by norm_num, by norm_num, by norm_num, by norm_num [mlenMax], by norm_num⟩
    have hcivB := civil_daysFromCivil hvalidB
    have hdku : dateKey (daysFromCivil (yearOf t1 + 101) 3 1) =
        (yearOf t1 + 101) * 10000 + 301 := by
      unfold dateKey
      rw [hcivB]
      push_cast
      ring
    rw [hdku, hdk2] at hdk
    have hnlm : ¬ ((yearOf t1 + 101) % 4 = 0 ∧
        ((yearOf t1 + 101) % 100 ≠ 0 ∨ (yearOf t1 + 101) % 400 = 0)) := by
      rw [← leapAbs_iff, hnl]
      simp
    by_cases hfb2 : monthOf t2 = 2 ∧ domOf t2 = 29
    · have hlp2 := (leapAbs_iff (yearOf t2)).mp (hfeb' hfb2)
      by_cases he : mdtEarlier (mdt t2) (mdt t1) = true
      · rw [if_pos he] at hav
        rw [hE] at he
        omega
      · rw [if_neg he] at hav
        have he' : ¬(((monthOf t2 * 100 + domOf t2 : Nat) : Int) * 86400000 + msOfDayTs t2 <
            ((monthOf t1 * 100 + domOf t1 : Nat) : Int) * 86400000 + msOfDayTs t1) :=
          fun hc => he (hE.mpr hc)
        omega
    · by_cases he : mdtEarlier (mdt t2) (mdt t1) = true
      · rw [if_pos he] at hav
        rw [hE] at he
        omega
      · rw [if_neg he] at hav
        have he' : ¬(((monthOf t2 * 100 + domOf t2 : Nat) : Int) * 86400000 + msOfDayTs t2 <
            ((monthOf t1 * 100 + domOf t1 : Nat) : Int) * 86400000 + msOfDayTs t1) :=
          fun hc => he (hE.mpr hc)
        omega
  · have hvalid101 : ValidYmd (yearOf t1 + 101) (monthOf t1) (domOf t1) :=
      ⟨hm1, hm12, hd1, (valid_ts t1).2.2.2.1, fun hc => absurd hc hfb⟩
    have hciv := civil_daysFromCivil hvalid101
    have hdku : dateKey (daysFromCivil (yearOf t1 + 101) (monthOf t1) (domOf t1)) =
        (yearOf t1 + 101) * 10000 + ((monthOf t1 : Nat) : Int) * 100 +
          ((domOf t1 : Nat) : Int) := by
      unfold dateKey
      rw [hciv]
    rw [hdku, hdk2] at hdk
    by_cases he : mdtEarlier (mdt t2) (mdt t1) = true
    · rw [if_pos he] at hav
      rw [hE] at he
      omega
    · rw [if_neg he] at hav
      have he' : ¬(((monthOf t2 * 100 + domOf t2 : Nat) : Int) * 86400000 + msOfDayTs t2 <
          ((monthOf t1 * 100 + domOf t1 : Nat) : Int) * 86400000 + msOfDayTs t1) :=
        fun hc => he (hE.mpr hc)
      omega

/-! ### The `person` crate (`src/lib.rs`) -/

/-- Modelled from the spec: the crate's static word lists live in the `list`
module (`src/list.rs`), which is not among the provided sources.  The
specification only requires a static, non-empty, immutable list of first/middle
name candidates; representative entries stand in for the real data, and no
theorem below depends on the particular strings. -/
def NAMES : List String := ["James", "Mary", "Robert", "Patricia", "John"]

/-- Modelled from the spec: the static, non-empty surname list of the `list`
module.  See `NAMES`. -/
def SURNAMES : List String := ["Smith", "Johnson", "Williams"]

structure Person where
  date_of_birth : Int
  first_name : String
  middle_name : Option String
  last_name : String
deriving DecidableEq

/-- Model of `SliceRandom::choose` applied with a uniform index draw `i`:
`None` exactly on an empty slice (where the source's `.unwrap()` would panic),
otherwise the element at `i % len`, every element being reached by some draw. -/
def chooseD (l : List String) (i : Nat) : Option String := l.get? (i % l.length)

/-- The random draws `with_dob_range_custom_rng` consumes: the
`gen_range(0..range_millis)` draw (any integer, reduced to the half-open range
exactly as every value of a uniform draw arises) and the three `choose` index
draws for first name, middle name and surname. -/
structure Draws where
  offset : Int
  firstIdx : Nat
  middleIdx : Nat
  lastIdx : Nat

namespace Person

/-- Model of `Person::with_dob_range_custom_rng`.  `none` models a panic:
`rng.gen_range(0..range_millis)` panics when the range is empty
(`range_millis <= 0`), and each `choose(rng).unwrap()` panics when its list is
empty. -/
def with_dob_range_custom_rng (rng : Draws) (min max : Int)
    (have_middle_name : Bool) : Option Person :=
  let range_millis := max - min
  if range_millis ≤ 0 then none
  else
    let random_millis := rng.offset % range_millis
    match chooseD NAMES rng.firstIdx,
        (if have_middle_name then (chooseD NAMES rng.middleIdx).map some
         else some none),
        chooseD SURNAMES rng.lastIdx with
    | some first, some middle, some last =>
      some { date_of_birth := min + random_millis, first_name := first,
             middle_name := middle, last_name := last }
    | _, _, _ => none

/-- Model of `Person::with_dob_range`: same construction with a thread-local
generator. -/
def with_dob_range (rng : Draws) (min max : Int) (have_middle_name : Bool) :
    Option Person :=
  with_dob_range_custom_rng rng min max have_middle_name

/-- Model of `Person::new`: date-of-birth range from
`now - Duration::days(366 * 100)` to `now`. -/
def new (rng : Draws) (now : Int) (have_middle_name : Bool) : Option Person :=
  with_dob_range rng (now - 36600 * msPerDay) now have_middle_name

/-- Model of `Person::random`: like `new`, with `have_middle_name` drawn by
`gen_bool(0.5)` (the draw `coin`). -/
def random (rng : Draws) (coin : Bool) (now : Int) : Option Person :=
  with_dob_range rng (now - 36600 * msPerDay) now coin

/-- Model of `Person::random_with_dob_range`: `have_middle_name` drawn by
`gen_bool(0.5)` (the draw `coin`). -/
def random_with_dob_range (rng : Draws) (coin : Bool) (min max : Int) :
    Option Person :=
  with_dob_range_custom_rng rng min max coin

def get_first_name (p : Person) : String := p.first_name

def get_middle_name (p : Person) : Option String := p.middle_name

def get_last_name (p : Person) : String := p.last_name

def get_date_of_birth (p : Person) : Int := p.date_of_birth

/-- Model of `Person::get_age`: `Utc::now().years_since(self.date_of_birth).unwrap()`,
with the wall clock `now` made explicit; `none` models the `unwrap` panic on
`None`. -/
def get_age (now : Int) (p : Person) : Option Nat :=
  years_since now p.date_of_birth

/-- Model of `Person::get_full_name`. -/
def get_full_name (p : Person) : String :=
  p.first_name ++
    (match p.middle_name with
     | some mn => " " ++ mn ++ " "
     | none => " ") ++
    p.last_name

end Person

/-- Model of the free function `repeat_last_char`. -/
def repeat_last_char (s : String) (times : Nat) : String :=
  match s.data.getLast? with
  | some c => s ++ String.mk (List.replicate times c)
  | none => s

/-- The fixed substitution table built in `get_random_username`.  The source
collects these pairs into a `HashMap`; since the keys are pairwise distinct,
lookup in that map coincides with association-list lookup. -/
def leet_map : List (Char × Char) :=
  [('a', '4'), ('b', '8'), ('c', 'C'), ('d', 'd'), ('e', '3'), ('f', 'F'),
   ('g', '6'), ('h', 'h'), ('j', 'J'), ('k', 'k'), ('l', '1'), ('m', 'm'),
   ('n', 'n'), ('o', '0'), ('p', 'p'), ('q', 'Q'), ('r', 'r'), ('s', '5'),
   ('t', '7'), ('u', 'u'), ('v', 'v'), ('w', 'w'), ('x', 'x'), ('y', 'Y'),
   ('z', '2')]

/-- Model of `leetify_char`: `*leet_map.get(&c).unwrap_or(&c)`. -/
def leetify_char (c : Char) (lm : List (Char × Char)) : Char :=
  (lm.lookup c).getD c

/-- The character loop of `leetify_string`: position `i` tracks the
`enumerate` index, and `draws i` is the `gen_bool(0.25)` outcome consulted at
position `i` (the `||` short-circuit skips the draw at index 0, which leaves
the result unchanged either way). -/
def leetifyChars (lm : List (Char × Char)) (draws : Nat → Bool) :
    List Char → Nat → List Char
  | [], _ => []
  | c :: rest, i =>
    (if i == 0 || !(draws i) then c else leetify_char c lm) ::
      leetifyChars lm draws rest (i + 1)

/-- Model of `leetify_string`. -/
def leetify_string (input : String) (lm : List (Char × Char))
    (draws : Nat → Bool) : String :=
  String.mk (leetifyChars lm draws input.data 0)

/-- The random draws `get_random_username` consumes. -/
structure UsernameDraws where
  numVal : Nat
  numIdx : Nat
  divIdx : Nat
  firstOrder : Bool
  rep1 : Nat
  rep2 : Nat
  leet : Nat → Bool

/-- Model of `Person::get_random_username`.  All four number candidates are
built eagerly (so `get_age` is always evaluated and its panic propagates), the
middle-name initial comes from `get_middle_name().unwrap_or(".")` and panics
(`none`) when the middle name is the empty string, and the parts are joined
with no separator before leetification. -/
def Person.get_random_username (d : UsernameDraws) (now : Int) (p : Person) :
    Option String :=
  match p.get_age now with
  | none => none
  | some age =>
    match chooseD [toString (d.numVal % 9999), "", toString age,
        toString (yearOf p.date_of_birth)] d.numIdx with
    | none => none
    | some number =>
      match (p.get_middle_name.getD ".").data.head? with
      | none => none
      | some mni =>
        match chooseD ["", "-", "_", ".", String.mk [mni]] d.divIdx with
        | none => none
        | some divisor =>
          let parts :=
            (if d.firstOrder then
              [repeat_last_char p.first_name (d.rep1 % 2), divisor,
               repeat_last_char p.last_name (d.rep2 % 2)]
            else
              [repeat_last_char p.last_name (d.rep1 % 2), divisor,
               repeat_last_char p.first_name (d.rep2 % 2)]) ++ [number]
          some (leetify_string (String.join parts) leet_map d.leet)

/-! ### Structural lemmas about construction -/

theorem chooseD_mem {l : List String} {i : Nat} {s : String} (h : chooseD l i = some s) :
    s ∈ l := List.get?_mem h

theorem Person.with_dob_range_custom_rng_some {rng : Draws} {min max : Int} {hmn : Bool}
    {p : Person} (h : Person.with_dob_range_custom_rng rng min max hmn = some p) :
    0 < max - min ∧ p.date_of_birth = min + rng.offset % (max - min) ∧
      p.first_name ∈ NAMES ∧ p.last_name ∈ SURNAMES ∧
      (hmn = false → p.middle_name = none) ∧
      (hmn = true → ∃ s, p.middle_name = some s ∧ s ∈ NAMES) := by
  simp only [Person.with_dob_range_custom_rng] at h
  split at h
  · exact absurd h (by simp)
  · rename_i hr
    split at h
    · rename_i first middle last hf hmid hl
      simp only [Option.some.injEq] at h
      subst h
      refine ⟨by omega, rfl, chooseD_mem hf, chooseD_mem hl, ?_, ?_⟩
      · intro hfalse
        subst hfalse
        simp only [Bool.false_eq_true, if_false, Option.some.injEq] at hmid
        simp [← hmid]
      · intro htrue
        subst htrue
        simp only [if_true, Option.map_eq_some'] at hmid
        obtain ⟨m, hmc, hm⟩ := hmid
        exact ⟨m, by simp [← hm], chooseD_mem hmc⟩
    · exact absurd h (by simp)

theorem Person.with_dob_range_custom_rng_none {rng : Draws} {min max : Int} {hmn : Bool}
    (h : max ≤ min) : Person.with_dob_range_custom_rng rng min max hmn = none := by
  simp only [Person.with_dob_range_custom_rng]
  rw [if_pos (by omega)]

/-! ### Claims -/

/-- C1: for every pair of timestamps `(min, max)` with `max > min`, every
`Person` constructed via `with_dob_range_custom_rng` — and hence via
`with_dob_range`, `random_with_dob_range`, `new` and `random` — has a
`date_of_birth` satisfying `min ≤ d < max`, for every possible draw of the
random millisecond offset (for `new` and `random` the range is
`[now - 36600 days, now)`). -/
theorem C1_dob_in_range :
    (∀ (rng : Draws) (min max : Int) (hmn : Bool) (p : Person), min < max →
      Person.with_dob_range_custom_rng rng min max hmn = some p →
      min ≤ p.date_of_birth ∧ p.date_of_birth < max) ∧
    (∀ (rng : Draws) (min max : Int) (hmn : Bool) (p : Person), min < max →
      Person.with_dob_range rng min max hmn = some p →
      min ≤ p.date_of_birth ∧ p.date_of_birth < max) ∧
    (∀ (rng : Draws) (coin : Bool) (min max : Int) (p : Person), min < max →
      Person.random_with_dob_range rng coin min max = some p →
      min ≤ p.date_of_birth ∧ p.date_of_birth < max) ∧
    (∀ (rng : Draws) (now : Int) (hmn : Bool) (p : Person),
      Person.new rng now hmn = some p →
      now - 36600 * msPerDay ≤ p.date_of_birth ∧ p.date_of_birth < now) ∧
    (∀ (rng : Draws) (coin : Bool) (now : Int) (p : Person),
      Person.random rng coin now = some p →
      now - 36600 * msPerDay ≤ p.date_of_birth ∧ p.date_of_birth < now) := by
  have key : ∀ (rng : Draws) (mn mx : Int) (hmn : Bool) (p : Person),
      Person.with_dob_range_custom_rng rng mn mx hmn = some p →
      mn ≤ p.date_of_birth ∧ p.date_of_birth < mx := by
    intro rng mn mx hmn p h
    obtain ⟨hrange, hdob, -⟩ := Person.with_dob_range_custom_rng_some h
    have h1 : 0 ≤ rng.offset % (mx - mn) := Int.emod_nonneg _ (by omega)
    have h2 : rng.offset % (mx - mn) < mx - mn := Int.emod_lt_of_pos _ (by omega)
    omega
  exact ⟨fun rng mn mx hmn p _ h => key rng mn mx hmn p h,
    fun rng mn mx hmn p _ h => key rng mn mx hmn p h,
    fun rng coin mn mx p _ h => key rng mn mx coin p h,
    fun rng now hmn p h => key rng (now - 36600 * msPerDay) now hmn p h,
    fun rng coin now p h => key rng (now - 36600 * msPerDay) now coin p h⟩

theorem C1_witness :
    ((0 : Int) ≤ (Person.mk 0 "James" none "Smith").date_of_birth ∧
      (Person.mk 0 "James" none "Smith").date_of_birth < 1000) ∧
    ((0 : Int) - 36600 * msPerDay ≤ (Person.mk (-3162240000000) "James" none "Smith").date_of_birth ∧
      (Person.mk (-3162240000000) "James" none "Smith").date_of_birth < 0) :=
  ⟨C1_dob_in_range.1 ⟨0, 0, 0, 0⟩ 0 1000 false (Person.mk 0 "James" none "Smith")
      (by norm_num) (by decide),
    C1_dob_in_range.2.2.2.1 ⟨0, 0, 0, 0⟩ 0 false (Person.mk (-3162240000000) "James" none "Smith")
      (by decide)⟩

/-- C2 (counterexample): the claim says a constructed `Person`'s
`date_of_birth` never exceeds the wall-clock time at construction regardless
of the supplied range; with the clock at `now = 0`, the caller-supplied future
range `[1000, 2000)` produces a `Person` born at `1000 > 0 = now`. -/
theorem C2_counterexample :
    ∃ p : Person, Person.with_dob_range_custom_rng ⟨0, 0, 0, 0⟩ 1000 2000 false = some p ∧
      0 < p.date_of_birth :=
  ⟨Person.mk 1000 "James" none "Smith", by decide, by decide⟩

/-- C2 (amended): a `Person` produced by `new` or `random` is born strictly
before the `now` sampled at construction; for the range-bounded entry points
the code only guarantees `min ≤ date_of_birth < max`, so the date of birth
does not exceed `now` only when the supplied `max` is at most `now`. -/
theorem C2_amended :
    (∀ (rng : Draws) (now : Int) (hmn : Bool) (p : Person),
      Person.new rng now hmn = some p → p.date_of_birth < now) ∧
    (∀ (rng : Draws) (coin : Bool) (now : Int) (p : Person),
      Person.random rng coin now = some p → p.date_of_birth < now) ∧
    (∀ (rng : Draws) (min max now : Int) (hmn : Bool) (p : Person),
      Person.with_dob_range_custom_rng rng min max hmn = some p → max ≤ now →
      p.date_of_birth < now) := by
  refine ⟨fun rng now hmn p h => ?_, fun rng coin now p h => ?_,
    fun rng mn mx now hmn p h hle => ?_⟩
  · exact (C1_dob_in_range.2.2.2.1 rng now hmn p h).2
  · exact (C1_dob_in_range.2.2.2.2 rng coin now p h).2
  · obtain ⟨hrange, hdob, -⟩ := Person.with_dob_range_custom_rng_some h
    have h2 : rng.offset % (mx - mn) < mx - mn := Int.emod_lt_of_pos _ (by omega)
    omega

theorem C2_witness :
    (Person.mk (-3162240000000) "James" none "Smith").date_of_birth < 0 ∧
      (Person.mk 1000 "James" none "Smith").date_of_birth < 5000 :=
  ⟨C2_amended.1 ⟨0, 0, 0, 0⟩ 0 false (Person.mk (-3162240000000) "James" none "Smith")
      (by decide),
    C2_amended.2.2 ⟨0, 0, 0, 0⟩ 1000 2000 5000 false (Person.mk 1000 "James" none "Smith")
      (by decide) (by norm_num)⟩

/-- C4: for every valid range and every draw, construction with
`have_middle_name = false` yields `middle_name = none`, and with
`have_middle_name = true` yields `middle_name = some s` for a string `s`
drawn from the first-name list `NAMES`. -/
theorem C4_middle_name :
    (∀ (rng : Draws) (min max : Int) (p : Person),
      Person.with_dob_range_custom_rng rng min max false = some p →
      p.middle_name = none) ∧
    (∀ (rng : Draws) (min max : Int) (p : Person),
      Person.with_dob_range_custom_rng rng min max true = some p →
      ∃ s, p.middle_name = some s ∧ s ∈ NAMES) := by
  constructor
  · intro rng mn mx p h
    exact (Person.with_dob_range_custom_rng_some h).2.2.2.2.1 rfl
  · intro rng mn mx p h
    exact (Person.with_dob_range_custom_rng_some h).2.2.2.2.2 rfl

theorem C4_witness :
    (Person.mk 0 "James" none "Smith").middle_name = none ∧
      ∃ s, (Person.mk 0 "James" (some "Mary") "Smith").middle_name = some s ∧ s ∈ NAMES :=
  ⟨C4_middle_name.1 ⟨0, 0, 0, 0⟩ 0 1000 (Person.mk 0 "James" none "Smith") (by decide),
    C4_middle_name.2 ⟨0, 0, 1, 0⟩ 0 1000 (Person.mk 0 "James" (some "Mary") "Smith")
      (by decide)⟩

/-- C6: for every pair `(min, max)` with `min ≥ max` the construction fails at
the constructor call itself — `gen_range(0..range_millis)` panics on the empty
range, modelled by `none` — and never returns a `Person`; the failure is not
deferred to a later accessor call. -/
theorem C6_invalid_range_fails (rng : Draws) (min max : Int) (hmn coin : Bool)
    (h : max ≤ min) :
    Person.with_dob_range_custom_rng rng min max hmn = none ∧
      Person.with_dob_range rng min max hmn = none ∧
      Person.random_with_dob_range rng coin min max = none :=
  ⟨Person.with_dob_range_custom_rng_none h, Person.with_dob_range_custom_rng_none h,
    Person.with_dob_range_custom_rng_none h⟩

theorem C6_witness :
    Person.with_dob_range_custom_rng ⟨0, 0, 0, 0⟩ 1000 1000 true = none ∧
      Person.with_dob_range ⟨0, 0, 0, 0⟩ 1000 1000 true = none ∧
      Person.random_with_dob_range ⟨0, 0, 0, 0⟩ false 1000 1000 = none :=
  C6_invalid_range_fails ⟨0, 0, 0, 0⟩ 1000 1000 true false (by norm_num)

/-- C7: `get_full_name` returns
`first_name ++ " " ++ middle_name ++ " " ++ last_name` when the middle name is
present and `first_name ++ " " ++ last_name` (a single space) when it is
absent; the result is a pure function of the `Person`'s fields, so repeated
calls return equal strings. -/
theorem C7_full_name (p : Person) :
    (∀ mn, p.middle_name = some mn →
      Person.get_full_name p = p.first_name ++ " " ++ mn ++ " " ++ p.last_name) ∧
    (p.middle_name = none →
      Person.get_full_name p = p.first_name ++ " " ++ p.last_name) := by
  constructor
  · intro mn h
    unfold Person.get_full_name
    rw [h]
    simp [String.ext_iff, String.data_append]
  · intro h
    unfold Person.get_full_name
    rw [h]

theorem C7_witness :
    Person.get_full_name (Person.mk 0 "John" (some "Quincy") "Public") =
        "John" ++ " " ++ "Quincy" ++ " " ++ "Public" ∧
      Person.get_full_name (Person.mk 0 "John" none "Public") = "John" ++ " " ++ "Public" :=
  ⟨(C7_full_name (Person.mk 0 "John" (some "Quincy") "Public")).1 "Quincy" rfl,
    (C7_full_name (Person.mk 0 "John" none "Public")).2 rfl⟩

/-- C9: a `Person` constructed by
`with_dob_range(now - 40*366 days, now - 21*366 days, false)` — the scenario
from the crate's doctest — has `get_age() ≥ 21` immediately afterwards, for
every random date-of-birth draw in that range. -/
theorem C9_age_at_least_21 (rng : Draws) (now : Int) (p : Person)
    (h : Person.with_dob_range rng (now - 14640 * msPerDay) (now - 7686 * msPerDay) false =
      some p) :
    ∃ a, Person.get_age now p = some a ∧ 21 ≤ a := by
  obtain ⟨hrange, hdob, -⟩ := Person.with_dob_range_custom_rng_some h
  apply age_ge_21
  have h2 : rng.offset % (now - 7686 * msPerDay - (now - 14640 * msPerDay)) <
      now - 7686 * msPerDay - (now - 14640 * msPerDay) := Int.emod_lt_of_pos _ (by omega)
  omega

theorem C9_witness :
    ∃ a, Person.get_age 0 (Person.mk (-1264896000000) "James" none "Smith") = some a ∧
      21 ≤ a :=
  C9_age_at_least_21 ⟨0, 0, 0, 0⟩ 0 (Person.mk (-1264896000000) "James" none "Smith")
    (by decide)

/-- C10: `get_age` is total exactly under the precondition
`date_of_birth ≤ now`: for a `Person` born at or before the current time it
returns some non-negative whole-year count without panicking, and for a
`Person` born strictly in the future (constructible, since the range-bounded
constructors accept future bounds) the `unwrap` of `years_since`'s `None`
panics, modelled by `none`. -/
theorem C10_get_age_total_iff (now : Int) (p : Person) :
    (p.date_of_birth ≤ now → ∃ n, Person.get_age now p = some n) ∧
    (now < p.date_of_birth → Person.get_age now p = none) := by
  constructor
  · intro h
    obtain ⟨a, ha, -⟩ := years_since_val now p.date_of_birth h
    exact ⟨a, ha⟩
  · intro h
    exact (years_since_none_iff now p.date_of_birth).mpr h

theorem C10_witness :
    (∃ n, Person.get_age 5 (Person.mk 0 "James" none "Smith") = some n) ∧
      Person.get_age 0 (Person.mk 1000 "James" none "Smith") = none :=
  ⟨(C10_get_age_total_iff 5 (Person.mk 0 "James" none "Smith")).1 (by norm_num),
    (C10_get_age_total_iff 0 (Person.mk 1000 "James" none "Smith")).2 (by norm_num)⟩

/-- Modelled from the spec's words for C5: "the current time minus 100
years", read as the same calendar month, day and time-of-day with the year
lowered by 100. -/
def minus100YearsSpec (t : Int) : Int :=
  daysFromCivil (yearOf t - 100) (monthOf t) (domOf t) * msPerDay + msOfDayTs t

/-- C5 (counterexample): the claim says `new` and `random` use a
date-of-birth range whose lower bound is exactly the current time minus 100
years.  The code subtracts `Duration::days(366 * 100)` instead; with the
clock at 2020-01-01T00:00:00Z the code's lower bound falls in October 1919,
not in 2020 minus 100 years = 1920. -/
theorem C5_counterexample :
    (1577836800000 : Int) - 36600 * msPerDay ≠ minus100YearsSpec 1577836800000 ∧
      yearOf ((1577836800000 : Int) - 36600 * msPerDay) = 1919 ∧
      yearOf (minus100YearsSpec 1577836800000) = 1920 :=
  ⟨by decide, by decide, by decide⟩

/-- C5 (amended): `new` and `random` construct the `Person` with a
date-of-birth range whose lower bound is exactly the current time minus
36600 days (`Duration::days(366 * 100)`) and whose upper bound is the
current time, so the resulting `Person` is between 0 and 100 years old
(inclusive) at construction time. -/
theorem C5_default_range :
    (∀ (rng : Draws) (now : Int) (hmn : Bool),
      Person.new rng now hmn = Person.with_dob_range rng (now - 36600 * msPerDay) now hmn) ∧
    (∀ (rng : Draws) (coin : Bool) (now : Int),
      Person.random rng coin now =
        Person.with_dob_range rng (now - 36600 * msPerDay) now coin) ∧
    (∀ (rng : Draws) (now : Int) (hmn : Bool) (p : Person),
      Person.new rng now hmn = some p →
      ∃ a, Person.get_age now p = some a ∧ a ≤ 100) ∧
    (∀ (rng : Draws) (coin : Bool) (now : Int) (p : Person),
      Person.random rng coin now = some p →
      ∃ a, Person.get_age now p = some a ∧ a ≤ 100) := by
  have key : ∀ (rng : Draws) (now : Int) (hmn : Bool) (p : Person),
      Person.with_dob_range_custom_rng rng (now - 36600 * msPerDay) now hmn = some p →
      ∃ a, Person.get_age now p = some a ∧ a ≤ 100 := by
    intro rng now hmn p h
    obtain ⟨hrange, hdob, -⟩ := Person.with_dob_range_custom_rng_some h
    have h1 : 0 ≤ rng.offset % (now - (now - 36600 * msPerDay)) :=
      Int.emod_nonneg _ (by omega)
    have h2 : rng.offset % (now - (now - 36600 * msPerDay)) <
        now - (now - 36600 * msPerDay) := Int.emod_lt_of_pos _ (by omega)
    exact age_le_100 (by omega) (by omega)
  exact ⟨fun _ _ _ => rfl, fun _ _ _ => rfl,
    fun rng now hmn p h => key rng now hmn p h,
    fun rng coin now p h => key rng now coin p h⟩

theorem C5_witness :
    ∃ a, Person.get_age 0 (Person.mk (-3162240000000) "James" none "Smith") = some a ∧
      a ≤ 100 :=
  C5_default_range.2.2.1 ⟨0, 0, 0, 0⟩ 0 false
    (Person.mk (-3162240000000) "James" none "Smith") (by decide)

/-! ### Username lemmas -/

theorem leetifyChars_head (lm : List (Char × Char)) (draws : Nat → Bool) (l : List Char) :
    (leetifyChars lm draws l 0).head? = l.head? := by
  cases l <;> simp [leetifyChars]

theorem leetifyChars_get (lm : List (Char × Char)) (draws : Nat → Bool) :
    ∀ (l : List Char) (i0 k : Nat),
      (leetifyChars lm draws l i0).get? k =
        (l.get? k).map (fun c =>
          if i0 + k == 0 || !(draws (i0 + k)) then c else leetify_char c lm) := by
  intro l
  induction l with
  | nil => intro i0 k; simp [leetifyChars]
  | cons a t ih =>
    intro i0 k
    cases k with
    | zero => simp [leetifyChars]
    | succ n =>
      simp only [leetifyChars, List.get?]
      rw [ih (i0 + 1) n]
      have harith : i0 + 1 + n = i0 + (n + 1) := by omega
      rw [harith]

theorem head?_append_left {α : Type} (l1 l2 : List α) (h : l1 ≠ []) :
    (l1 ++ l2).head? = l1.head? := by
  cases l1 <;> simp_all

theorem foldl_append_data (acc : String) (l : List String) :
    (List.foldl (· ++ ·) acc l).data = acc.data ++ (l.map String.data).flatten := by
  induction l generalizing acc with
  | nil => simp
  | cons a t ih => simp [List.foldl, ih, String.data_append]

theorem join_data (l : List String) :
    (String.join l).data = (l.map String.data).flatten := by
  have := foldl_append_data "" l
  simpa [String.join] using this

theorem repeat_last_char_data (s : String) (n : Nat) :
    ∃ suffix, (repeat_last_char s n).data = s.data ++ suffix := by
  unfold repeat_last_char
  cases h : s.data.getLast? with
  | none => exact ⟨[], by simp⟩
  | some c => exact ⟨List.replicate n c, by simp [String.data_append]⟩

/-- Leading-character analysis of the assembled username parts. -/
theorem username_parts_head (first last divisor number : String) (r1 r2 : Nat) (ord : Bool)
    (draws : Nat → Bool) (hf : first.data ≠ []) (hl : last.data ≠ []) :
    (leetify_string (String.join
        ((if ord then [repeat_last_char first r1, divisor, repeat_last_char last r2]
          else [repeat_last_char last r1, divisor, repeat_last_char first r2]) ++ [number]))
      leet_map draws).data.head? = first.data.head? ∨
    (leetify_string (String.join
        ((if ord then [repeat_last_char first r1, divisor, repeat_last_char last r2]
          else [repeat_last_char last r1, divisor, repeat_last_char first r2]) ++ [number]))
      leet_map draws).data.head? = last.data.head? := by
  unfold leetify_string
  rw [show ∀ l : List Char, (String.mk l).data = l from fun _ => rfl]
  rw [leetifyChars_head, join_data]
  obtain ⟨suf1, hsuf1⟩ := repeat_last_char_data first r1
  obtain ⟨suf2, hsuf2⟩ := repeat_last_char_data last r1
  by_cases ho : ord = true
  · left
    simp only [ho, if_true, List.map, List.flatten_cons, List.flatten_nil, hsuf1,
      List.append_assoc]
    exact head?_append_left _ _ hf
  · right
    simp only [Bool.not_eq_true] at ho
    simp only [ho, Bool.false_eq_true, if_false, List.map, List.flatten_cons,
      List.flatten_nil, hsuf2, List.append_assoc]
    exact head?_append_left _ _ hl

/-- C3: for every `Person` with non-empty `first_name` and `last_name`, every
string `get_random_username` returns starts with the first character of
`first_name` or that of `last_name`: the leading token is a name variant whose
first character `repeat_last_char` preserves, and leetification never
substitutes the character at index 0. -/
theorem C3_username_head (d : UsernameDraws) (now : Int) (p : Person) (s : String)
    (hf : p.first_name.data ≠ []) (hl : p.last_name.data ≠ [])
    (h : Person.get_random_username d now p = some s) :
    s.data.head? = p.first_name.data.head? ∨ s.data.head? = p.last_name.data.head? := by
  unfold Person.get_random_username at h
  split at h
  · exact absurd h (by simp)
  · split at h
    · exact absurd h (by simp)
    · split at h
      · exact absurd h (by simp)
      · split at h
        · exact absurd h (by simp)
        · simp only [Option.some.injEq] at h
          subst h
          exact username_parts_head p.first_name p.last_name _ _ _ _ _ d.leet hf hl

theorem C3_witness :
    (Person.mk 0 "Ann" none "Lee").first_name.data ≠ [] ∧
      (Person.mk 0 "Ann" none "Lee").last_name.data ≠ [] ∧
      ∃ s, Person.get_random_username ⟨0, 0, 0, true, 0, 0, fun _ => false⟩ 0
          (Person.mk 0 "Ann" none "Lee") = some s ∧
        (s.data.head? = (Person.mk 0 "Ann" none "Lee").first_name.data.head? ∨
          s.data.head? = (Person.mk 0 "Ann" none "Lee").last_name.data.head?) :=
  ⟨by decide, by decide, "AnnLee0", by decide,
    C3_username_head ⟨0, 0, 0, true, 0, 0, fun _ => false⟩ 0
      (Person.mk 0 "Ann" none "Lee") "AnnLee0" (by decide) (by decide) (by decide)⟩

theorem lookup_none_small {c : Char} (l : List (Char × Char))
    (hk : ∀ p ∈ l, 97 ≤ p.1.toNat) (hc : c.toNat < 97) : l.lookup c = none := by
  induction l with
  | nil => rfl
  | cons a t ih =>
    obtain ⟨k, v⟩ := a
    have h97 : 97 ≤ k.toNat := hk (k, v) (by simp)
    have hne : (c == k) = false := by
      apply beq_eq_false_iff_ne.mpr
      intro he
      rw [he] at hc
      omega
    simp only [List.lookup, hne]
    exact ih (fun p hp => hk p (by simp [hp]))

/-- C8: in the leetification step, a character with no entry in the fixed
substitution table is emitted unchanged at every position; in particular
every uppercase letter, every digit, the divisor characters '-', '_' and '.',
and the lowercase letter 'i' have no table entry and are never substituted,
while a table-listed character at an index greater than 0 is replaced by
exactly its mapped substitute when the 25% substitution draw at that index
comes up. -/
theorem C8_leet_table (input : String) (draws : Nat → Bool) (i : Nat) (c : Char) :
    (input.data.get? i = some c → leet_map.lookup c = none →
      (leetify_string input leet_map draws).data.get? i = some c) ∧
    ((c.isUpper = true ∨ c.isDigit = true ∨ c = '-' ∨ c = '_' ∨ c = '.' ∨ c = 'i') →
      leet_map.lookup c = none) ∧
    (∀ sub, input.data.get? i = some c → leet_map.lookup c = some sub → 0 < i →
      draws i = true →
      (leetify_string input leet_map draws).data.get? i = some sub) := by
  refine ⟨?_, ?_, ?_⟩
  · intro hg hnone
    unfold leetify_string
    rw [show ∀ l : List Char, (String.mk l).data = l from fun _ => rfl]
    rw [leetifyChars_get, hg]
    simp only [Option.map_some']
    split
    · rfl
    · simp [leetify_char, hnone]
  · intro hc
    have hkeys : ∀ p ∈ leet_map, 97 ≤ p.1.toNat := by decide
    rcases hc with h | h | h | h | h | h
    · apply lookup_none_small leet_map hkeys
      simp [Char.isUpper] at h
      exact Nat.lt_of_le_of_lt h.2 (by norm_num)
    · apply lookup_none_small leet_map hkeys
      simp [Char.isDigit] at h
      exact Nat.lt_of_le_of_lt h.2 (by norm_num)
    · subst h; decide
    · subst h; decide
    · subst h; decide
    · subst h; decide
  · intro sub hg hsome hi hd
    unfold leetify_string
    rw [show ∀ l : List Char, (String.mk l).data = l from fun _ => rfl]
    rw [leetifyChars_get, hg]
    simp only [Option.map_some', Nat.zero_add]
    have hcond : (i == 0 || !(draws i)) = false := by
      have hne : i ≠ 0 := by omega
      simp only [hd, Bool.not_true, Bool.or_false, beq_eq_false_iff_ne]
      exact hne
    rw [hcond]
    simp [leetify_char, hsome]

theorem C8_witness :
    (leetify_string "AB" leet_map (fun _ => true)).data.get? 1 = some 'B' ∧
      leet_map.lookup 'Z' = none ∧
      (leetify_string "aa" leet_map (fun _ => true)).data.get? 1 = some '4' :=
  ⟨(C8_leet_table "AB" (fun _ => true) 1 'B').1 (by decide) (by decide),
    (C8_leet_table "AB" (fun _ => true) 1 'Z').2.1 (Or.inl (by decide)),
    (C8_leet_table "aa" (fun _ => true) 1 'a').2.2 '4' (by decide) (by decide)
      (by norm_num) rfl⟩

end PersonSpec
